import Mathlib

/-!
# tokbox: token minting, session creation and recording start

A shallow embedding of `tokbox.go` (package `tokbox`) and of the parts of the Go
standard library it calls, followed by theorems about `Session.Token`,
`Tokbox.NewSession` and `Tokbox.NewRecording`.

Go strings and byte slices are lists of bytes.  The clock (`time.Now().UTC().Unix()`),
the accepted sample of the random source behind `rand.Intn`, and the HTTP collaborators
are explicit arguments.
-/

namespace tokbox

/-! ## Bytes and strings -/

/-- A Go `byte`. -/
abbrev Byte := Fin 256

/-- A Go `string` or `[]byte`: a sequence of bytes. -/
abbrev Str := List Byte

/-- Conversion `byte(n)` of an unsigned integer: the low 8 bits. -/
def byte (n : Nat) : Byte := ⟨n % 256, Nat.mod_lt _ (by decide)⟩

/-- The bytes of a Go string literal (Go source text is UTF-8). -/
def lit (s : String) : Str :=
  (s.data.flatMap String.utf8EncodeChar).map fun u => byte u.toNat

/-! ## `fmt`: the verbs `%d`, `%v` on integers and `%x` on byte slices -/

/-- Decimal digits of `n`, most significant first, prepended to `acc`
(`strconv.formatBits` in base 10); `fuel` bounds the number of digits. -/
def fmtDigits : Nat → Nat → Str → Str
  | 0, _, acc => acc
  | fuel + 1, n, acc =>
    if n < 10 then byte (48 + n) :: acc
    else fmtDigits fuel (n / 10) (byte (48 + n % 10) :: acc)

/-- Decimal text of a natural number. -/
def fmtNat (n : Nat) : Str := fmtDigits (n + 1) n []

/-- The text `fmt.Sprintf("%d", x)` of an integer: a minus sign for negatives, then the
decimal digits of the magnitude. -/
def fmtInt (x : Int) : Str :=
  if x < 0 then byte 45 :: fmtNat (-x).toNat else fmtNat x.toNat

/-- Lower-case hexadecimal digit of a nibble (`"0123456789abcdef"[n]`). -/
def lowerhex (n : Nat) : Byte := if n < 10 then byte (48 + n) else byte (87 + n)

/-- The text `fmt.Sprintf("%x", b)` of a byte slice: two lower-case hex digits per byte. -/
def fmtHex (b : Str) : Str := b.flatMap fun c => [lowerhex (c.val / 16), lowerhex (c.val % 16)]

/-- Wrap-around of a mathematical integer into Go's `int64`. -/
def wrapInt64 (x : Int) : Int := (x + 2 ^ 63) % 2 ^ 64 - 2 ^ 63

/-! ## `net/url`: `QueryEscape` and `Values.Encode` -/

/-- `shouldEscape(c, encodeQueryComponent)`: everything but ASCII letters, digits and
`-`, `_`, `.`, `~` is escaped. -/
def shouldEscape (c : Byte) : Bool :=
  if (97 ≤ c.val ∧ c.val ≤ 122) ∨ (65 ≤ c.val ∧ c.val ≤ 90) ∨ (48 ≤ c.val ∧ c.val ≤ 57) then
    false
  else if c.val = 45 ∨ c.val = 95 ∨ c.val = 46 ∨ c.val = 126 then
    false
  else
    true

/-- Upper-case hexadecimal digit of a nibble (`"0123456789ABCDEF"[n]`). -/
def upperhex (n : Nat) : Byte := if n < 10 then byte (48 + n) else byte (55 + n)

/-- What `escape(s, encodeQueryComponent)` emits for one input byte: `+` for a space,
`%XX` for a byte that must be escaped, the byte itself otherwise. -/
def escapeByte (c : Byte) : Str :=
  if c.val = 32 then [byte 43]
  else if shouldEscape c then [byte 37, upperhex (c.val / 16), upperhex (c.val % 16)]
  else [c]

/-- Go's `url.QueryEscape`. -/
def QueryEscape (s : Str) : Str := s.flatMap escapeByte

/-! ## `crypto/sha1` and `crypto/hmac` -/

/-- Rotation `bits.RotateLeft32(x, n)` of a 32-bit word, `0 < n < 32`. -/
def rotl32 (x n : Nat) : Nat := ((x <<< n) % 2 ^ 32) ||| (x >>> (32 - n))

/-- Big-endian 32-bit word of four bytes. -/
def beWord (a b c d : Byte) : Nat :=
  a.val <<< 24 ||| b.val <<< 16 ||| c.val <<< 8 ||| d.val

/-- The big-endian words of a block. -/
def blockWords : Str → List Nat
  | a :: b :: c :: d :: rest => beWord a b c d :: blockWords rest
  | _ => []

/-- Message schedule extension; `rev` holds the words so far, most recent first. -/
def extendSchedule : Nat → List Nat → List Nat
  | 0, rev => rev
  | k + 1, rev =>
    extendSchedule k
      (rotl32 (rev.getD 2 0 ^^^ rev.getD 7 0 ^^^ rev.getD 13 0 ^^^ rev.getD 15 0) 1 :: rev)

/-- The five chaining words of SHA-1. -/
structure Sha1State where
  h0 : Nat
  h1 : Nat
  h2 : Nat
  h3 : Nat
  h4 : Nat
deriving DecidableEq, Repr

/-- Round function of SHA-1 for round `t`. -/
def sha1F (t b c d : Nat) : Nat :=
  if t < 20 then (b &&& c) ||| ((b ^^^ 0xFFFFFFFF) &&& d)
  else if t < 40 then b ^^^ c ^^^ d
  else if t < 60 then ((b ||| c) &&& d) ||| (b &&& c)
  else b ^^^ c ^^^ d

/-- Round constant of SHA-1 for round `t`. -/
def sha1K (t : Nat) : Nat :=
  if t < 20 then 0x5A827999
  else if t < 40 then 0x6ED9EBA1
  else if t < 60 then 0x8F1BBCDC
  else 0xCA62C1D6

/-- The rounds of one block, one per schedule word, starting at round `t`. -/
def sha1Rounds : List Nat → Nat → Sha1State → Sha1State
  | [], _, s => s
  | w :: ws, t, s =>
    sha1Rounds ws (t + 1)
      ⟨(rotl32 s.h0 5 + sha1F t s.h1 s.h2 s.h3 + s.h4 + w + sha1K t) % 2 ^ 32,
        s.h0, rotl32 s.h1 30, s.h2, s.h3⟩

/-- Compression of one 64-byte block into the chaining state. -/
def sha1Block (s : Sha1State) (blk : Str) : Sha1State :=
  let r := sha1Rounds (extendSchedule 64 (blockWords blk).reverse).reverse 0 s
  ⟨(s.h0 + r.h0) % 2 ^ 32, (s.h1 + r.h1) % 2 ^ 32, (s.h2 + r.h2) % 2 ^ 32,
    (s.h3 + r.h3) % 2 ^ 32, (s.h4 + r.h4) % 2 ^ 32⟩

/-- Compression of the first `k` blocks of `p`. -/
def sha1Blocks : Nat → Sha1State → Str → Sha1State
  | 0, s, _ => s
  | k + 1, s, p => sha1Blocks k (sha1Block s (p.take 64)) (p.drop 64)

/-- SHA-1 padding: a `0x80` byte, zeros up to 56 modulo 64, and the bit length as a
64-bit big-endian integer. -/
def sha1Pad (m : Str) : Str :=
  m ++ (byte 0x80 :: List.replicate ((119 - m.length % 64) % 64) (byte 0)) ++
    (List.range 8).map fun i => byte (((m.length * 8) % 2 ^ 64) >>> (8 * (7 - i)))

/-- Big-endian bytes of a 32-bit word. -/
def wordBytes (w : Nat) : Str :=
  [byte (w >>> 24), byte (w >>> 16), byte (w >>> 8), byte w]

/-- The 20 digest bytes of a chaining state. -/
def Sha1State.bytes (s : Sha1State) : Str :=
  wordBytes s.h0 ++ wordBytes s.h1 ++ wordBytes s.h2 ++ wordBytes s.h3 ++ wordBytes s.h4

/-- The SHA-1 digest of a message (`sha1.Sum`). -/
@[irreducible]
def sha1Sum (m : Str) : Str :=
  (sha1Blocks ((sha1Pad m).length / 64)
    ⟨0x67452301, 0xEFCDAB89, 0x98BADCFE, 0x10325476, 0xC3D2E1F0⟩ (sha1Pad m)).bytes

/-- A Go `error` value: its message. -/
structure GoError where
  msg : Str
deriving DecidableEq, Repr

/-- The `hash.Hash` returned by `hmac.New(sha1.New, key)`: the two pads derived from the
key and the bytes written to the inner hash so far. -/
structure HMAC where
  ipad : Str
  opad : Str
  written : Str
deriving DecidableEq, Repr

/-- The key block of HMAC: a key longer than the block size (64) is hashed first, and
the key is zero-padded to the block size. -/
def hmacKey (key : Str) : Str :=
  let k := if key.length > 64 then sha1Sum key else key
  k ++ List.replicate (64 - k.length) (byte 0)

/-- Bytewise xor of a block with a constant. -/
def xorPad (x : Nat) (k : Str) : Str := k.map fun c => byte (c.val ^^^ x)

/-- Go's `hmac.New(sha1.New, key)`: the key block xored with `0x36` and with `0x5c`;
nothing written yet. -/
def hmacNew (key : Str) : HMAC :=
  { ipad := xorPad 0x36 (hmacKey key), opad := xorPad 0x5c (hmacKey key), written := [] }

/-- Go's `(*hmac).Write`: the bytes go to the inner hash, which consumes all of them and
never fails; the results are the hash afterwards, the count `n` and the error. -/
def HMAC.Write (h : HMAC) (p : Str) : HMAC × Nat × Option GoError :=
  ({ h with written := h.written ++ p }, p.length, none)

/-- Go's `(*hmac).Sum(in)`: appends `H(opad ++ H(ipad ++ written))` to `b`. -/
def HMAC.Sum (h : HMAC) (b : Str) : Str :=
  b ++ sha1Sum (h.opad ++ sha1Sum (h.ipad ++ h.written))

/-- HMAC-SHA1 of a message under a key, as one function (RFC 2104):
`H((K xor opad) ++ H((K xor ipad) ++ msg))`. -/
def hmacSha1 (key msg : Str) : Str :=
  sha1Sum (xorPad 0x5c (hmacKey key) ++ sha1Sum (xorPad 0x36 (hmacKey key) ++ msg))

/-- A lower-case hexadecimal character: `0`-`9` or `a`-`f`. -/
def isLowerHex (c : Byte) : Bool :=
  (48 ≤ c.val && c.val ≤ 57) || (97 ≤ c.val && c.val ≤ 102)

/-- Neither `&` nor `=` occurs in the text. -/
def isSafe (v : Str) : Prop := byte 38 ∉ v ∧ byte 61 ∉ v

/-- A character of a decimal integer text: a digit or the minus sign. -/
def isDecimal (c : Byte) : Bool := (48 ≤ c.val && c.val ≤ 57) || c.val = 45

/-- The number a text of decimal digits denotes, continuing from `v`. -/
def decValue (v : Nat) (s : Str) : Nat := s.foldl (fun v d => v * 10 + (d.val - 48)) v

/-! ## `encoding/base64`: the standard padded encoding -/

/-- The alphabet of `base64.StdEncoding`. -/
def encodeStd : Str :=
  lit "ABCDEFGHIJKLMNOPQRSTUVWXYZabcdefghijklmnopqrstuvwxyz0123456789+/"

/-- Character of a 6-bit value (`enc.encode[i]`). -/
def b64Char (i : Nat) : Byte := encodeStd.getD i (byte 0)

/-- The padding character `=`. -/
def padChar : Byte := byte 61

/-- Go's `(*Encoding).Encode` for `StdEncoding`: each 3-byte group `val = a<<16 | b<<8 | c`
gives the four characters of `val>>18&0x3F`, `val>>12&0x3F`, `val>>6&0x3F`, `val&0x3F`;
a remainder of one or two bytes is padded with `=`. -/
def base64Encode : Str → Str
  | a :: b :: c :: rest =>
    let val := a.val * 65536 + b.val * 256 + c.val
    b64Char (val / 262144 % 64) :: b64Char (val / 4096 % 64) :: b64Char (val / 64 % 64) ::
      b64Char (val % 64) :: base64Encode rest
  | [a, b] =>
    let val := a.val * 65536 + b.val * 256
    [b64Char (val / 262144 % 64), b64Char (val / 4096 % 64), b64Char (val / 64 % 64), padChar]
  | [a] =>
    let val := a.val * 65536
    [b64Char (val / 262144 % 64), b64Char (val / 4096 % 64), padChar, padChar]
  | [] => []

/-- The writer returned by `base64.NewEncoder(base64.StdEncoding, &buf)`: up to two
pending input bytes and the text written to the buffer so far. -/
structure Encoder where
  pending : Str
  out : Str
deriving DecidableEq, Repr

/-- A fresh encoder over an empty `bytes.Buffer`. -/
def NewEncoder : Encoder := { pending := [], out := [] }

/-- Go's `(*encoder).Write`: complete 3-byte groups are encoded and written out, the
trailing one or two bytes are kept until the next write or `Close`. -/
def Encoder.Write (e : Encoder) (p : Str) : Encoder :=
  let q := e.pending ++ p
  let n := q.length / 3 * 3
  { pending := q.drop n, out := e.out ++ base64Encode (q.take n) }

/-- Go's `(*encoder).Close`: the pending bytes are encoded with padding. -/
def Encoder.Close (e : Encoder) : Encoder :=
  { pending := [], out := e.out ++ base64Encode e.pending }

/-- The 6-bit value of a character of the standard alphabet. -/
def b64Val (c : Byte) : Option Nat :=
  let i := encodeStd.indexOf c
  if i < 64 then some i else none

/-- The three bytes of an unpadded group of four characters. -/
def decodeQuad (a b c d : Byte) : Option Str :=
  match b64Val a, b64Val b, b64Val c, b64Val d with
  | some x, some y, some z, some w =>
    let val := x * 262144 + y * 4096 + z * 64 + w
    some [byte (val / 65536), byte (val / 256), byte val]
  | _, _, _, _ => none

/-- The bytes of the last group of four characters, which may end in one or two `=`
(the unused low bits must be zero, as in Go's strict decoding). -/
def decodeLast (a b c d : Byte) : Option Str :=
  if d = padChar then
    if c = padChar then
      match b64Val a, b64Val b with
      | some x, some y => if y % 16 = 0 then some [byte (x * 4 + y / 16)] else none
      | _, _ => none
    else
      match b64Val a, b64Val b, b64Val c with
      | some x, some y, some z =>
        if z % 4 = 0 then
          let val := x * 4096 + y * 64 + z
          some [byte (val / 1024), byte (val / 4)]
        else none
      | _, _, _ => none
  else decodeQuad a b c d

/-- Decoder of the standard padded base64 encoding (RFC 4648, section 4): the inverse
used to state what a minted token decodes to. -/
def base64Decode : Str → Option Str
  | [] => some []
  | a :: b :: c :: d :: rest =>
    if rest = [] then decodeLast a b c d
    else
      match decodeQuad a b c d, base64Decode rest with
      | some q, some r => some (q ++ r)
      | _, _ => none
  | _ => none

/-! ## `net/url.Values`, `net/http` and the decoders: the collaborators of the client -/

/-- Go's `url.Values`, as the list of added (key, value) pairs in insertion order. -/
abbrev Values := List (Str × Str)

/-- Go's `Values.Add`. -/
def Values.Add (v : Values) (key value : Str) : Values := v ++ [(key, value)]

/-- Go's `Values.Encode`: the pairs sorted by key, each written `key=value` with both
sides query-escaped, joined by `&`. -/
def Values.Encode (v : Values) : Str :=
  (lit "&").intercalate
    ((v.insertionSort fun a b => a.1 ≤ b.1).map fun kv =>
      QueryEscape kv.1 ++ lit "=" ++ QueryEscape kv.2)

/-- An `*http.Request`: method, URL, the header fields added to it, and the body. -/
structure Request where
  Method : Str
  URL : Str
  Header : List (Str × Str)
  Body : Str
deriving DecidableEq, Repr

/-- Go's `req.Header.Add(key, value)`. -/
def Request.HeaderAdd (r : Request) (key value : Str) : Request :=
  { r with Header := r.Header ++ [(key, value)] }

/-- A response body (`io.ReadCloser`): the bytes it yields and the error, if any, that
ends the stream instead of a clean end of file. -/
structure Body where
  data : Str
  readErr : Option GoError
deriving DecidableEq, Repr

/-- An `*http.Response`: status code and body. -/
structure Response where
  StatusCode : Int
  Body : Body
deriving DecidableEq, Repr

/-- Go's `ioutil.ReadAll`. -/
def ReadAll (b : Body) : Except GoError Str :=
  match b.readErr with
  | some e => .error e
  | none => .ok b.data

/-! ## The package `tokbox` -/

/-- The constant `apiHost`. -/
def apiHost : Str := lit "https://api.opentok.com"

/-- The constant `pathSession` (`iota` = 0). -/
def pathSession : Int := 0

/-- The constant `pathArchiveRecording` (`iota` = 1). -/
def pathArchiveRecording : Int := 1

/-- The type `Tokbox`: the credential pair. -/
structure Tokbox where
  apiKey : Str
  partnerSecret : Str
deriving DecidableEq, Repr

/-- The type `Session`; `t` is the pointer to the client that created it (`none` is nil). -/
structure Session where
  SessionId : Str
  PartnerId : Str
  CreateDt : Str
  SessionStatus : Str
  t : Option Tokbox
deriving DecidableEq, Repr

/-- The type `Archive`. -/
structure Archive where
  Id : Str
  SessionId : Str
deriving DecidableEq, Repr

/-- The type `sessions`, the shape the XML response is decoded into. -/
structure sessions where
  Sessions : List Session
deriving DecidableEq, Repr

/-- The library calls whose results the client branches on: `http.NewRequest`,
`http.Client.Do`, `xml.NewDecoder(body).Decode`, `json.Marshal` of the recording
parameters and `json.Unmarshal` into an `Archive`. -/
structure Env where
  NewRequest : Str → Str → Str → Except GoError Request
  Do : Request → Except GoError Response
  xmlDecode : Body → Except GoError sessions
  jsonMarshal : Str → Bool → Bool → Except GoError Str
  jsonUnmarshal : Str → Except GoError Archive

/-- The function `New`. -/
def New (apikey partnerSecret : Str) : Tokbox := ⟨apikey, partnerSecret⟩

/-- Go's `rand.Intn(n)` for `0 < n < 2^31`: the accepted 31-bit sample of the source,
reduced modulo `n`. -/
def randIntn (n sample : Nat) : Nat := sample % n

/-- The nonce of a token: `rand.Intn(999999)`. -/
def nonce (sample : Nat) : Nat := randIntn 999999 sample

/-- The local `dataStr` of `Session.Token` when it is signed (lines 59-71): the
query-escaped fields in the order the code appends them; `now` is the clock reading
`time.Now().UTC().Unix()` and `sample` the outcome of the random source. -/
def Session.dataStr (s : Session) (role connectionData : Str) (expiration now : Int)
    (sample : Nat) : Str :=
  let dataStr : Str := []
  let dataStr := dataStr ++ (lit "session_id=" ++ QueryEscape s.SessionId)
  let dataStr := dataStr ++ (lit "&create_time=" ++ QueryEscape (fmtInt now))
  let dataStr :=
    if expiration > 0 then
      dataStr ++ (lit "&expire_time=" ++ QueryEscape (fmtInt (wrapInt64 (now + expiration))))
    else dataStr
  let dataStr :=
    if role.length > 0 then dataStr ++ (lit "&role=" ++ QueryEscape role) else dataStr
  let dataStr :=
    if connectionData.length > 0 then
      dataStr ++ (lit "&connection_data=" ++ QueryEscape connectionData)
    else dataStr
  dataStr ++ (lit "&nonce=" ++ QueryEscape (fmtInt (nonce sample)))

/-- The method `(*Session).Token`.  The result is `none` when the call panics (a nil
`s.t` is dereferenced), `some (.error e)` for `return "", e` and `some (.ok token)` for
`return token, nil`. -/
def Session.Token (s : Session) (role connectionData : Str) (expiration now : Int)
    (sample : Nat) : Option (Except GoError Str) :=
  let dataStr := s.dataStr role connectionData expiration now sample
  match s.t with
  | none => none
  | some t =>
    let w := (hmacNew t.partnerSecret).Write dataStr
    let h := w.1
    let n := w.2.1
    match w.2.2 with
    | some err => some (.error err)
    | none =>
      if n ≠ dataStr.length then
        some (.error ⟨lit "hmac not enough bytes written " ++ fmtInt n ++ lit " != " ++
          fmtInt dataStr.length⟩)
      else
        let preCoded : Str := []
        let preCoded := preCoded ++ (lit "partner_id=" ++ t.apiKey)
        let preCoded := preCoded ++ (lit "&sig=" ++ (fmtHex (h.Sum []) ++ lit ":" ++ dataStr))
        let encoder := (NewEncoder.Write preCoded).Close
        some (.ok (lit "T1==" ++ encoder.out))

/-- The function `getPath`; `none` is `log.Fatalln`, which ends the process. -/
def getPath (p : Int) (apiKey : Str) : Option Str :=
  if p = pathSession then some (apiHost ++ lit "/session/create")
  else if p = pathArchiveRecording then
    some (apiHost ++ lit "/v2/partner/" ++ apiKey ++ lit "/archive")
  else none

/-- The error `fmt.Errorf("Tokbox returns error code: %v", status)`. -/
def statusError (status : Int) : GoError :=
  ⟨lit "Tokbox returns error code: " ++ fmtInt status⟩

/-- The error `fmt.Errorf("tokbox did not return a session")`. -/
def emptyResponseError : GoError := ⟨lit "tokbox did not return a session"⟩

/-- The method `(*Tokbox).NewSession`.  A Go return `&Session{}, err` with a non-nil
error is `some (.error err)`, a return `&o, nil` is `some (.ok o)`, and `none` is the
process ending in `getPath`. -/
def Tokbox.NewSession (env : Env) (t : Tokbox) (location : Str) (p2p : Bool) :
    Option (Except GoError Session) :=
  let params : Values := []
  let params := if location.length > 0 then params.Add (lit "location") location else params
  let params :=
    if p2p then params.Add (lit "p2p.preference") (lit "enabled")
    else params.Add (lit "p2p.preference") (lit "disabled")
  match getPath pathSession t.apiKey with
  | none => none
  | some path =>
    match env.NewRequest (lit "POST") path params.Encode with
    | .error err => some (.error err)
    | .ok req =>
      let req := req.HeaderAdd (lit "X-TB-PARTNER-AUTH") (t.apiKey ++ lit ":" ++ t.partnerSecret)
      match env.Do req with
      | .error err => some (.error err)
      | .ok res =>
        if res.StatusCode ≠ 200 then some (.error (statusError res.StatusCode))
        else
          match env.xmlDecode res.Body with
          | .error err => some (.error err)
          | .ok s =>
            if h : s.Sessions.length < 1 then some (.error emptyResponseError)
            else
              let o := s.Sessions[0]
              let o := { o with t := some t }
              some (.ok o)

/-- The method `(*Tokbox).NewRecording`, with the same conventions as `NewSession`. -/
def Tokbox.NewRecording (env : Env) (t : Tokbox) (s : Session) (hasAudio hasVideo : Bool) :
    Option (Except GoError Archive) :=
  match env.jsonMarshal s.SessionId hasAudio hasVideo with
  | .error err => some (.error err)
  | .ok postData =>
    match getPath pathArchiveRecording t.apiKey with
    | none => none
    | some path =>
      match env.NewRequest (lit "POST") path postData with
      | .error err => some (.error err)
      | .ok req =>
        let req := req.HeaderAdd (lit "X-TB-PARTNER-AUTH") (t.apiKey ++ lit ":" ++ t.partnerSecret)
        let req := req.HeaderAdd (lit "Content-Type") (lit "application/json")
        match env.Do req with
        | .error err => some (.error err)
        | .ok res =>
          if res.StatusCode ≠ 200 then some (.error (statusError res.StatusCode))
          else
            match ReadAll res.Body with
            | .error _ => some (.error ⟨lit "Couldn\x27t read response body"⟩)
            | .ok body =>
              match env.jsonUnmarshal body with
              | .error _ => some (.error ⟨lit "Couldn\x27t unmarshal JSON response"⟩)
              | .ok a => some (.ok a)

/-! ## Notions used to state the properties -/

/-- The fields of the payload as (key, escaped value) pairs, in the order `Session.Token`
appends them. -/
def Session.fields (s : Session) (role connectionData : Str) (expiration now : Int)
    (sample : Nat) : List (Str × Str) :=
  [(lit "session_id", QueryEscape s.SessionId), (lit "create_time", QueryEscape (fmtInt now))] ++
    (if expiration > 0 then
      [(lit "expire_time", QueryEscape (fmtInt (wrapInt64 (now + expiration))))] else []) ++
    (if role.length > 0 then [(lit "role", QueryEscape role)] else []) ++
    (if connectionData.length > 0 then
      [(lit "connection_data", QueryEscape connectionData)] else []) ++
    [(lit "nonce", QueryEscape (fmtInt (nonce sample)))]

/-- A list of (key, value) pairs written `key=value` and joined by `&`. -/
def joinFields (fs : List (Str × Str)) : Str :=
  [byte 38].intercalate (fs.map fun kv => kv.1 ++ byte 61 :: kv.2)

/-- The keys read back from a payload: split at each `&`, keep the text before the first
`=` of each piece. -/
def payloadKeys (p : Str) : List Str :=
  (p.splitOn (byte 38)).map fun piece => piece.takeWhile fun c => c != byte 61

/-- The key sequence the payload is specified to have. -/
def expectedKeys (role connectionData : Str) (expiration : Int) : List Str :=
  [lit "session_id", lit "create_time"] ++
    (if expiration > 0 then [lit "expire_time"] else []) ++
    (if role ≠ [] then [lit "role"] else []) ++
    (if connectionData ≠ [] then [lit "connection_data"] else []) ++
    [lit "nonce"]

/-- The text that is base64-encoded: `partner_id=<apiKey>&sig=<hex digest>:<payload>`. -/
def preCoded (t : Tokbox) (payload : Str) : Str :=
  lit "partner_id=" ++ t.apiKey ++ lit "&sig=" ++ fmtHex (hmacSha1 t.partnerSecret payload) ++
    lit ":" ++ payload

/-- A client used in the worked examples. -/
def demoClient : Tokbox := ⟨lit "45678", lit "secret"⟩

/-- A session of `demoClient` whose id contains a space, `&` and `=`. -/
def demoSession : Session := ⟨lit "1_MX4 &=", lit "45678", [], [], some demoClient⟩

/-- The form values `NewSession` posts (lines 94-102). -/
def sessionParams (location : Str) (p2p : Bool) : Values :=
  let params : Values := []
  let params := if location.length > 0 then params.Add (lit "location") location else params
  if p2p then params.Add (lit "p2p.preference") (lit "enabled")
  else params.Add (lit "p2p.preference") (lit "disabled")

/-- A transport that accepts every request and answers it with `res`, with decoders that
return the sessions `ss` and an empty archive. -/
def demoEnv (res : Response) (ss : List Session) : Env :=
  { NewRequest := fun m u b => .ok ⟨m, u, [], b⟩,
    Do := fun _ => .ok res,
    xmlDecode := fun _ => .ok ⟨ss⟩,
    jsonMarshal := fun _ _ _ => .ok [],
    jsonUnmarshal := fun _ => .ok ⟨[], []⟩ }

/-- The transport of `demoEnv` with a JSON encoder that always fails. -/
def brokenJsonEnv (res : Response) : Env :=
  { demoEnv res [] with jsonMarshal := fun _ _ _ => .error ⟨lit "json: unsupported value"⟩ }

/-! ## Base64: decoding inverts encoding -/

theorem b64Val_b64Char : ∀ i < 64, b64Val (b64Char i) = some i := by decide

theorem b64Char_ne_padChar : ∀ i < 64, b64Char i ≠ padChar := by decide

theorem base64Encode_eq_nil {s : Str} (h : base64Encode s = []) : s = [] := by
  match s with
  | [] => rfl
  | [_] => simp [base64Encode] at h
  | [_, _] => simp [base64Encode] at h
  | _ :: _ :: _ :: _ => simp [base64Encode] at h

theorem byte_val (n : Nat) : (byte n).val = n % 256 := rfl

theorem byte_eq_of_val {n : Nat} {b : Byte} (h : n % 256 = b.val) : byte n = b :=
  Fin.ext h

theorem decodeQuad_encode (a b c : Byte) :
    decodeQuad (b64Char ((a.val * 65536 + b.val * 256 + c.val) / 262144 % 64))
      (b64Char ((a.val * 65536 + b.val * 256 + c.val) / 4096 % 64))
      (b64Char ((a.val * 65536 + b.val * 256 + c.val) / 64 % 64))
      (b64Char ((a.val * 65536 + b.val * 256 + c.val) % 64)) = some [a, b, c] := by
  have ha := a.isLt
  have hb := b.isLt
  have hc := c.isLt
  simp only [decodeQuad, b64Val_b64Char _ (Nat.mod_lt _ (by decide : 0 < 64))]
  congr 1
  congr 1
  · exact byte_eq_of_val (by omega)
  · congr 1
    · exact byte_eq_of_val (by omega)
    · congr 1
      exact byte_eq_of_val (by omega)

theorem base64Decode_encode (s : Str) : base64Decode (base64Encode s) = some s := by
  induction s using base64Encode.induct with
  | case1 a b c rest ih =>
    simp only [base64Encode, base64Decode]
    have h3 := b64Char_ne_padChar ((a.val * 65536 + b.val * 256 + c.val) % 64)
      (Nat.mod_lt _ (by decide))
    by_cases hr : base64Encode rest = []
    · have := base64Encode_eq_nil hr
      subst this
      simp [hr, decodeLast, h3, decodeQuad_encode]
    · simp [hr, ih, decodeQuad_encode]
  | case2 a b =>
    have ha := a.isLt
    have hb := b.isLt
    have h2 := b64Char_ne_padChar ((a.val * 65536 + b.val * 256) / 64 % 64)
      (Nat.mod_lt _ (by decide))
    simp only [base64Encode, base64Decode, decodeLast, if_true, h2, if_false,
      b64Val_b64Char _ (Nat.mod_lt _ (by decide : 0 < 64))]
    rw [if_pos (by omega)]
    congr 1
    congr 1
    · exact byte_eq_of_val (by omega)
    · congr 1
      exact byte_eq_of_val (by omega)
  | case3 a =>
    have ha := a.isLt
    simp only [base64Encode, base64Decode, decodeLast, if_true,
      b64Val_b64Char _ (Nat.mod_lt _ (by decide : 0 < 64))]
    rw [if_pos (by omega)]
    congr 1
    congr 1
    exact byte_eq_of_val (by omega)
  | case4 => rfl

/-! ## Base64: the streaming encoder agrees with the one-shot encoding -/

theorem base64Encode_append (a b : Str) (h : a.length % 3 = 0) :
    base64Encode (a ++ b) = base64Encode a ++ base64Encode b := by
  induction a using base64Encode.induct with
  | case1 x y z rest ih =>
    have : rest.length % 3 = 0 := by simp only [List.length_cons] at h; omega
    simp [base64Encode, ih this]
  | case2 x y => simp at h
  | case3 x => simp at h
  | case4 => simp [base64Encode]

theorem Encoder_write_close (p : Str) : ((NewEncoder.Write p).Close).out = base64Encode p := by
  have h : (p.take (p.length / 3 * 3)).length % 3 = 0 := by
    rw [List.length_take, Nat.min_eq_left (Nat.div_mul_le_self _ _)]
    exact Nat.mul_mod_left _ _
  simp only [Encoder.Write, Encoder.Close, NewEncoder, List.nil_append]
  rw [← base64Encode_append _ _ h, List.take_append_drop]

theorem base64Encode_injective {a b : Str} (h : base64Encode a = base64Encode b) : a = b := by
  have := congrArg base64Decode h
  rw [base64Decode_encode, base64Decode_encode] at this
  exact Option.some.inj this

/-! ## SHA-1, HMAC and hexadecimal text -/

theorem Sha1State.bytes_length (s : Sha1State) : s.bytes.length = 20 := rfl

theorem sha1Sum_length (m : Str) : (sha1Sum m).length = 20 := by
  unfold sha1Sum
  exact Sha1State.bytes_length _

theorem hmacSha1_length (key msg : Str) : (hmacSha1 key msg).length = 20 :=
  sha1Sum_length _

theorem HMAC.Sum_nil (h : HMAC) :
    h.Sum [] = sha1Sum (h.opad ++ sha1Sum (h.ipad ++ h.written)) := by
  unfold HMAC.Sum
  rw [List.nil_append]

theorem hmac_write_sum (key msg : Str) :
    ((hmacNew key).Write msg).1.Sum [] = hmacSha1 key msg := by
  rw [HMAC.Sum_nil]
  unfold hmacSha1
  have h1 : ((hmacNew key).Write msg).1.opad = xorPad 0x5c (hmacKey key) := rfl
  have h2 : ((hmacNew key).Write msg).1.ipad = xorPad 0x36 (hmacKey key) := rfl
  have h3 : ((hmacNew key).Write msg).1.written = msg := rfl
  rw [h1, h2, h3]

theorem fmtHex_cons (c : Byte) (cs : Str) :
    fmtHex (c :: cs) = lowerhex (c.val / 16) :: lowerhex (c.val % 16) :: fmtHex cs := rfl

theorem fmtHex_length (b : Str) : (fmtHex b).length = 2 * b.length := by
  induction b with
  | nil => rfl
  | cons c cs ih =>
    rw [fmtHex_cons, List.length_cons, List.length_cons, List.length_cons, ih]
    omega

theorem lowerhex_isLowerHex : ∀ n < 16, isLowerHex (lowerhex n) = true := by decide

theorem fmtHex_isLowerHex (b : Str) : ∀ x ∈ fmtHex b, isLowerHex x = true := by
  induction b with
  | nil => intro x hx; cases hx
  | cons c cs ih =>
    intro x hx
    rw [fmtHex_cons, List.mem_cons, List.mem_cons] at hx
    rcases hx with rfl | rfl | hx
    · exact lowerhex_isLowerHex _ (Nat.div_lt_of_lt_mul (by have := c.isLt; omega))
    · exact lowerhex_isLowerHex _ (Nat.mod_lt _ (by decide))
    · exact ih x hx

/-- Known answer (RFC 2202, test case 2) for the model of HMAC-SHA1. -/
theorem hmacSha1_rfc2202_case2 :
    fmtHex (hmacSha1 (lit "Jefe") (lit "what do ya want for nothing?")) =
      lit "effcdf6ae5eb2fa2d27416d5f184df9c259a7c79" := by
  decide!

/-- Known answer (FIPS 180, two-block message) for the model of SHA-1. -/
theorem sha1Sum_two_blocks :
    fmtHex (sha1Sum (lit "abcdbcdecdefdefgefghfghighijhijkijkljklmklmnlmnomnopnopq")) =
      lit "84983e441c3bd26ebaae4aa1f95129e5e54670f1" := by
  decide!

/-! ## Decimal text and query escaping -/

theorem byte_digit_val {n : Nat} (h : n < 10) : (byte (48 + n)).val = 48 + n := by
  rw [byte_val]; omega

theorem fmtDigits_isDecimal (fuel n : Nat) (acc : Str)
    (hacc : ∀ x ∈ acc, isDecimal x = true ∧ x ≠ byte 45) :
    ∀ x ∈ fmtDigits fuel n acc, isDecimal x = true ∧ x ≠ byte 45 := by
  induction fuel generalizing n acc with
  | zero => exact hacc
  | succ fuel ih =>
    have key : ∀ d < 10, isDecimal (byte (48 + d)) = true ∧ byte (48 + d) ≠ byte 45 := by
      decide
    unfold fmtDigits
    split
    · rename_i h
      intro x hx
      rcases List.mem_cons.1 hx with rfl | hx
      · exact key n h
      · exact hacc x hx
    · apply ih
      intro x hx
      rcases List.mem_cons.1 hx with rfl | hx
      · exact key _ (Nat.mod_lt _ (by decide))
      · exact hacc x hx

theorem fmtNat_isDecimal (n : Nat) : ∀ x ∈ fmtNat n, isDecimal x = true ∧ x ≠ byte 45 :=
  fmtDigits_isDecimal _ _ _ (fun _ h => by cases h)

theorem fmtInt_isDecimal (x : Int) : ∀ c ∈ fmtInt x, isDecimal c = true := by
  intro c hc
  unfold fmtInt at hc
  split at hc
  · rcases List.mem_cons.1 hc with rfl | hc
    · rfl
    · exact (fmtNat_isDecimal _ c hc).1
  · exact (fmtNat_isDecimal _ c hc).1

theorem decValue_fmtDigits (fuel n : Nat) (acc : Str) (h : n < fuel) :
    decValue 0 (fmtDigits fuel n acc) = decValue n acc := by
  induction fuel generalizing n acc with
  | zero => omega
  | succ fuel ih =>
    unfold fmtDigits
    split
    · rename_i h10
      simp only [decValue, List.foldl_cons, byte_digit_val h10]
      congr 1
      omega
    · rename_i h10
      rw [ih _ _ (by omega)]
      simp only [decValue, List.foldl_cons, byte_digit_val (Nat.mod_lt n (by decide : 0 < 10))]
      congr 1
      omega

theorem decValue_fmtNat (n : Nat) : decValue 0 (fmtNat n) = n := by
  unfold fmtNat
  rw [decValue_fmtDigits _ _ _ (Nat.lt_succ_self n)]
  rfl

theorem fmtNat_injective {a b : Nat} (h : fmtNat a = fmtNat b) : a = b := by
  rw [← decValue_fmtNat a, ← decValue_fmtNat b, h]

theorem fmtInt_injective {x y : Int} (h : fmtInt x = fmtInt y) : x = y := by
  unfold fmtInt at h
  split at h <;> split at h
  · have := fmtNat_injective (List.cons.inj h).2
    omega
  · exfalso
    have hm : byte 45 ∈ fmtNat y.toNat := by rw [← h]; exact List.mem_cons_self _ _
    exact (fmtNat_isDecimal _ _ hm).2 rfl
  · exfalso
    have hm : byte 45 ∈ fmtNat x.toNat := by rw [h]; exact List.mem_cons_self _ _
    exact (fmtNat_isDecimal _ _ hm).2 rfl
  · have := fmtNat_injective h
    omega

theorem escapeByte_of_isDecimal (c : Byte) (h : isDecimal c = true) : escapeByte c = [c] := by
  have hc : (48 ≤ c.val ∧ c.val ≤ 57) ∨ c.val = 45 := by
    simpa [isDecimal] using h
  have h32 : ¬ c.val = 32 := by omega
  have hs : shouldEscape c = false := by
    unfold shouldEscape
    split
    · rfl
    · split
      · rfl
      · omega
  unfold escapeByte
  rw [if_neg h32, hs]
  rfl

theorem QueryEscape_of_isDecimal (s : Str) (h : ∀ c ∈ s, isDecimal c = true) :
    QueryEscape s = s := by
  induction s with
  | nil => rfl
  | cons c cs ih =>
    have h1 : QueryEscape (c :: cs) = escapeByte c ++ QueryEscape cs := rfl
    rw [h1, escapeByte_of_isDecimal c (h c (List.mem_cons_self _ _)),
      ih (fun x hx => h x (List.mem_cons_of_mem _ hx))]
    rfl

theorem QueryEscape_fmtInt (x : Int) : QueryEscape (fmtInt x) = fmtInt x :=
  QueryEscape_of_isDecimal _ (fmtInt_isDecimal x)

theorem upperhex_safe : ∀ n < 16, upperhex n ≠ byte 38 ∧ upperhex n ≠ byte 61 := by
  decide

theorem byte_ne_of_val_ne {c : Byte} {n : Nat} (h : c.val ≠ n % 256) : c ≠ byte n :=
  fun e => h (by rw [e]; rfl)

theorem escapeByte_safe (c : Byte) : ∀ x ∈ escapeByte c, x ≠ byte 38 ∧ x ≠ byte 61 := by
  intro x hx
  unfold escapeByte at hx
  split at hx
  · rw [List.mem_singleton] at hx
    subst hx
    decide
  · split at hx
    · rw [List.mem_cons, List.mem_cons, List.mem_singleton] at hx
      rcases hx with rfl | rfl | rfl
      · decide
      · exact upperhex_safe _ (Nat.div_lt_of_lt_mul (by have := c.isLt; omega))
      · exact upperhex_safe _ (Nat.mod_lt _ (by decide))
    · rename_i h32 hs
      rw [List.mem_singleton] at hx
      subst hx
      have hk : ¬ (x.val = 38 ∨ x.val = 61) := by
        intro hv
        apply hs
        unfold shouldEscape
        rw [if_neg (by omega), if_neg (by omega)]
      exact ⟨byte_ne_of_val_ne (by omega), byte_ne_of_val_ne (by omega)⟩

theorem QueryEscape_safe (s : Str) : ∀ x ∈ QueryEscape s, x ≠ byte 38 ∧ x ≠ byte 61 := by
  intro x hx
  unfold QueryEscape at hx
  obtain ⟨c, -, hc⟩ := List.mem_flatMap.1 hx
  exact escapeByte_safe c x hc

/-! ## Lists: separators, infixes and splitting -/

theorem infix_of_sep {α : Type} {sep : α} {p a b : List α} (hp : sep ∉ p)
    (h : p <:+: a ++ sep :: b) : p <:+: a ∨ p <:+: b := by
  induction a with
  | nil =>
    rcases List.infix_cons_iff.1 h with h | h
    · cases p with
      | nil => exact Or.inl List.nil_infix
      | cons x xs =>
        exfalso
        obtain ⟨t, ht⟩ := h
        rw [List.cons_append] at ht
        exact hp (by rw [(List.cons.inj ht).1]; exact List.mem_cons_self _ _)
    · exact Or.inr h
  | cons x a ih =>
    rw [List.cons_append] at h
    rcases List.infix_cons_iff.1 h with h | h
    · by_cases hl : p.length ≤ (x :: a).length
      · have h2 : (x :: a) <+: x :: (a ++ sep :: b) := ⟨sep :: b, rfl⟩
        exact Or.inl (List.prefix_of_prefix_length_le h h2 hl).isInfix
      · exfalso
        obtain ⟨t, ht⟩ := h
        have hsep : sep ∈ p := by
          have hlen : (x :: a).length < p.length := by omega
          have e1 : (p ++ t)[(x :: a).length]? = some sep := by
            rw [ht, ← List.cons_append, List.getElem?_append_right (Nat.le_refl _)]
            simp
          rw [List.getElem?_append_left hlen] at e1
          exact List.getElem?_mem e1
        exact hp hsep
    · rcases ih h with h | h
      · exact Or.inl (List.infix_cons h)
      · exact Or.inr h

theorem infix_intercalate {α : Type} {sep : α} {p : List α} (hp : sep ∉ p) (hne : p ≠ [])
    (ls : List (List α)) (h : p <:+: [sep].intercalate ls) : ∃ l ∈ ls, p <:+: l := by
  induction ls with
  | nil =>
    exfalso
    have : [sep].intercalate ([] : List (List α)) = [] := rfl
    rw [this] at h
    exact hne (List.infix_nil.1 h)
  | cons l ls ih =>
    cases ls with
    | nil =>
      have : [sep].intercalate [l] = l := by simp [List.intercalate]
      rw [this] at h
      exact ⟨l, List.mem_cons_self _ _, h⟩
    | cons l2 ls =>
      have : [sep].intercalate (l :: l2 :: ls) = l ++ sep :: [sep].intercalate (l2 :: ls) := by
        simp [List.intercalate]
      rw [this] at h
      rcases infix_of_sep hp h with h | h
      · exact ⟨l, List.mem_cons_self _ _, h⟩
      · obtain ⟨l3, hl3, h3⟩ := ih h
        exact ⟨l3, List.mem_cons_of_mem _ hl3, h3⟩

theorem infix_key {α : Type} {e : α} {q k v : List α} (hv : e ∉ v)
    (h : q ++ [e] <:+: k ++ e :: v) : q ++ [e] <:+: k ++ [e] := by
  obtain ⟨s, t, hst⟩ := h
  have h1 : s ++ (q ++ [e]) <+: (k ++ [e]) ++ v := ⟨t, by rw [hst]; simp⟩
  have h2 : k ++ [e] <+: (k ++ [e]) ++ v := ⟨v, rfl⟩
  by_cases hl : (s ++ (q ++ [e])).length ≤ (k ++ [e]).length
  · exact ⟨s, _, (List.prefix_of_prefix_length_le h1 h2 hl).choose_spec⟩
  · exfalso
    obtain ⟨t2, ht2⟩ := h1
    have hlen : (s ++ q).length < ((k ++ [e]) ++ v).length := by
      have := congrArg List.length ht2
      simp only [List.length_append, List.length_cons, List.length_nil] at this ⊢
      omega
    have hge : (k ++ [e]).length ≤ (s ++ q).length := by
      simp only [List.length_append, List.length_cons, List.length_nil] at hl ⊢
      omega
    have e1 : ((k ++ [e]) ++ v)[(s ++ q).length]? = some e := by
      rw [← ht2, ← List.append_assoc s, List.append_assoc (s ++ q),
        List.getElem?_append_right (Nat.le_refl _)]
      simp
    rw [List.getElem?_append_right hge] at e1
    exact hv (List.getElem?_mem e1)

theorem takeWhile_key {α : Type} [DecidableEq α] {e : α} (k v : List α) (hk : e ∉ k) :
    (k ++ e :: v).takeWhile (fun c => c != e) = k := by
  induction k with
  | nil => simp
  | cons x k ih =>
    have hx : x ≠ e := fun h => hk (by rw [h]; exact List.mem_cons_self _ _)
    have hk2 : e ∉ k := fun h => hk (List.mem_cons_of_mem _ h)
    simp [List.takeWhile_cons, hx, ih hk2]

/-! ## The payload as a list of fields -/

theorem dataStr_eq_joinFields (s : Session) (role connectionData : Str) (expiration now : Int)
    (sample : Nat) :
    s.dataStr role connectionData expiration now sample =
      joinFields (s.fields role connectionData expiration now sample) := by
  have h0 : lit "session_id=" = lit "session_id" ++ [byte 61] := by decide
  have h1 : lit "&create_time=" = byte 38 :: (lit "create_time" ++ [byte 61]) := by decide
  have h2 : lit "&expire_time=" = byte 38 :: (lit "expire_time" ++ [byte 61]) := by decide
  have h3 : lit "&role=" = byte 38 :: (lit "role" ++ [byte 61]) := by decide
  have h4 : lit "&connection_data=" = byte 38 :: (lit "connection_data" ++ [byte 61]) := by
    decide
  have h5 : lit "&nonce=" = byte 38 :: (lit "nonce" ++ [byte 61]) := by decide
  unfold Session.dataStr Session.fields joinFields
  rw [h0, h1, h2, h3, h4, h5]
  by_cases he : expiration > 0 <;> by_cases hr : role.length > 0 <;>
    by_cases hc : connectionData.length > 0 <;>
    simp [he, hr, hc, List.intercalate, List.intersperse]

theorem fields_keys (s : Session) (role connectionData : Str) (expiration now : Int)
    (sample : Nat) :
    (s.fields role connectionData expiration now sample).map Prod.fst =
      expectedKeys role connectionData expiration := by
  unfold Session.fields expectedKeys
  by_cases he : expiration > 0 <;> by_cases hr2 : role = [] <;>
    by_cases hc2 : connectionData = [] <;> simp [he, hr2, hc2, List.length_pos]

theorem QueryEscape_isSafe (v : Str) : isSafe (QueryEscape v) :=
  ⟨fun h => (QueryEscape_safe v _ h).1 rfl, fun h => (QueryEscape_safe v _ h).2 rfl⟩

theorem expectedKeys_isSafe (role connectionData : Str) (expiration : Int) :
    ∀ k ∈ expectedKeys role connectionData expiration, isSafe k := by
  have h : ∀ k ∈ [lit "session_id", lit "create_time", lit "expire_time", lit "role",
      lit "connection_data", lit "nonce"], byte 38 ∉ k ∧ byte 61 ∉ k := by decide
  intro k hk
  apply h
  unfold expectedKeys at hk
  by_cases he : expiration > 0 <;> by_cases hr2 : role = [] <;>
    by_cases hc2 : connectionData = [] <;> simp [he, hr2, hc2] at hk <;>
    simp only [List.mem_cons] <;> tauto

theorem fields_isSafe (s : Session) (role connectionData : Str) (expiration now : Int)
    (sample : Nat) :
    ∀ kv ∈ s.fields role connectionData expiration now sample, isSafe kv.1 ∧ isSafe kv.2 := by
  intro kv hkv
  refine ⟨?_, ?_⟩
  · apply expectedKeys_isSafe role connectionData expiration
    rw [← fields_keys s role connectionData expiration now sample]
    exact List.mem_map_of_mem _ hkv
  · unfold Session.fields at hkv
    simp only [List.mem_append, List.mem_cons, List.mem_singleton, List.mem_ite_nil_right,
      List.not_mem_nil, or_false] at hkv
    rcases hkv with ((((rfl | rfl) | ⟨_, rfl⟩) | ⟨_, rfl⟩) | ⟨_, rfl⟩) | rfl <;>
      exact QueryEscape_isSafe _

/-! ## `Session.Token` in closed form -/

theorem HMAC.Write_count (h : HMAC) (p : Str) : (h.Write p).2.1 = p.length := rfl

theorem HMAC.Write_err (h : HMAC) (p : Str) : (h.Write p).2.2 = none := rfl

theorem Token_eq (s : Session) (t : Tokbox) (hs : s.t = some t) (role connectionData : Str)
    (expiration now : Int) (sample : Nat) :
    s.Token role connectionData expiration now sample =
      some (.ok (lit "T1==" ++
        base64Encode (preCoded t (s.dataStr role connectionData expiration now sample)))) := by
  unfold Session.Token
  rw [hs]
  simp only [HMAC.Write_count, HMAC.Write_err, ne_eq, not_true_eq_false, if_false,
    hmac_write_sum, Encoder_write_close]
  unfold preCoded
  simp only [List.nil_append, List.append_assoc]

theorem fields_ne_nil (s : Session) (role connectionData : Str) (expiration now : Int)
    (sample : Nat) : s.fields role connectionData expiration now sample ≠ [] := by
  unfold Session.fields
  simp

theorem piece_no_amp {fs : List (Str × Str)} (hwf : ∀ kv ∈ fs, isSafe kv.1 ∧ isSafe kv.2) :
    ∀ l ∈ fs.map (fun kv => kv.1 ++ byte 61 :: kv.2), byte 38 ∉ l := by
  intro l hl
  obtain ⟨kv, hkv, rfl⟩ := List.mem_map.1 hl
  intro hmem
  rcases List.mem_append.1 hmem with h | h
  · exact (hwf kv hkv).1.1 h
  · rcases List.mem_cons.1 h with h | h
    · exact absurd h (by decide)
    · exact (hwf kv hkv).2.1 h

theorem splitOn_joinFields {fs : List (Str × Str)} (hne : fs ≠ [])
    (hwf : ∀ kv ∈ fs, isSafe kv.1 ∧ isSafe kv.2) :
    (joinFields fs).splitOn (byte 38) = fs.map (fun kv => kv.1 ++ byte 61 :: kv.2) := by
  unfold joinFields
  exact List.splitOn_intercalate _ (byte 38) (piece_no_amp hwf) (by simpa using hne)

theorem payloadKeys_joinFields {fs : List (Str × Str)} (hne : fs ≠ [])
    (hwf : ∀ kv ∈ fs, isSafe kv.1 ∧ isSafe kv.2) :
    payloadKeys (joinFields fs) = fs.map Prod.fst := by
  unfold payloadKeys
  rw [splitOn_joinFields hne hwf, List.map_map]
  apply List.map_congr_left
  intro kv hkv
  exact takeWhile_key _ _ (hwf kv hkv).1.2

theorem infix_joinFields {fs : List (Str × Str)} (hwf : ∀ kv ∈ fs, isSafe kv.1 ∧ isSafe kv.2)
    {q : Str} (hq : byte 38 ∉ q) (h : q ++ [byte 61] <:+: joinFields fs) :
    ∃ k ∈ fs.map Prod.fst, q ++ [byte 61] <:+: k ++ [byte 61] := by
  have hp : byte 38 ∉ q ++ [byte 61] := by
    intro hmem
    rcases List.mem_append.1 hmem with h | h
    · exact hq h
    · exact absurd (List.mem_singleton.1 h) (by decide)
  obtain ⟨l, hl, hinf⟩ := infix_intercalate hp (by simp) _ h
  obtain ⟨kv, hkv, rfl⟩ := List.mem_map.1 hl
  exact ⟨kv.1, List.mem_map_of_mem _ hkv, infix_key (hwf kv hkv).2.2 hinf⟩

/-- C3: split at each `&` and cut at the first `=`, the payload signed by `Session.Token`
reads back exactly the keys `session_id`, `create_time`, then `expire_time` if
`expiration > 0`, then `role` if the role is non-empty, then `connection_data` if the
connection data is non-empty, and `nonce` last, whatever bytes the values contain. -/
theorem payload_key_order (s : Session) (role connectionData : Str) (expiration now : Int)
    (sample : Nat) :
    payloadKeys (s.dataStr role connectionData expiration now sample) =
      expectedKeys role connectionData expiration := by
  rw [dataStr_eq_joinFields,
    payloadKeys_joinFields (fields_ne_nil s role connectionData expiration now sample)
      (fields_isSafe s role connectionData expiration now sample),
    fields_keys]

/-- C4: with an empty role and empty connection data, the payload signed by
`Session.Token` contains neither `role=` nor `connection_data=` as a substring. -/
theorem payload_omits_role_and_connection_data (s : Session) (expiration now : Int)
    (sample : Nat) :
    ¬ lit "role=" <:+: s.dataStr [] [] expiration now sample ∧
      ¬ lit "connection_data=" <:+: s.dataStr [] [] expiration now sample := by
  have hk : ∀ k ∈ expectedKeys [] [] expiration,
      ¬ lit "role" ++ [byte 61] <:+: k ++ [byte 61] ∧
        ¬ lit "connection_data" ++ [byte 61] <:+: k ++ [byte 61] := by
    have h : ∀ k ∈ [lit "session_id", lit "create_time", lit "expire_time", lit "nonce"],
        ¬ lit "role" ++ [byte 61] <:+: k ++ [byte 61] ∧
          ¬ lit "connection_data" ++ [byte 61] <:+: k ++ [byte 61] := by
      decide!
    intro k hk
    apply h
    unfold expectedKeys at hk
    by_cases he : expiration > 0 <;> simp [he] at hk <;> simp only [List.mem_cons] <;> tauto
  have h1 : lit "role=" = lit "role" ++ [byte 61] := by decide
  have h2 : lit "connection_data=" = lit "connection_data" ++ [byte 61] := by decide
  rw [dataStr_eq_joinFields, h1, h2]
  constructor
  · intro h
    obtain ⟨k, hkm, hinf⟩ := infix_joinFields (fields_isSafe s [] [] expiration now sample)
      (by decide) h
    rw [fields_keys] at hkm
    exact (hk k hkm).1 hinf
  · intro h
    obtain ⟨k, hkm, hinf⟩ := infix_joinFields (fields_isSafe s [] [] expiration now sample)
      (by decide) h
    rw [fields_keys] at hkm
    exact (hk k hkm).2 hinf

/-- C5: when `expiration <= 0`, the payload signed by `Session.Token` contains no
`expire_time=` substring. -/
theorem payload_omits_expire_time (s : Session) (role connectionData : Str)
    (expiration now : Int) (sample : Nat) (hexp : expiration ≤ 0) :
    ¬ lit "expire_time=" <:+: s.dataStr role connectionData expiration now sample := by
  have hk : ∀ k ∈ expectedKeys role connectionData expiration,
      ¬ lit "expire_time" ++ [byte 61] <:+: k ++ [byte 61] := by
    have h : ∀ k ∈ [lit "session_id", lit "create_time", lit "role", lit "connection_data",
        lit "nonce"], ¬ lit "expire_time" ++ [byte 61] <:+: k ++ [byte 61] := by
      decide!
    intro k hk
    apply h
    have he : ¬ expiration > 0 := by omega
    unfold expectedKeys at hk
    by_cases hr2 : role = [] <;> by_cases hc2 : connectionData = [] <;>
      simp [he, hr2, hc2] at hk <;> simp only [List.mem_cons] <;> tauto
  have h1 : lit "expire_time=" = lit "expire_time" ++ [byte 61] := by decide
  rw [dataStr_eq_joinFields, h1]
  intro h
  obtain ⟨k, hkm, hinf⟩ :=
    infix_joinFields (fields_isSafe s role connectionData expiration now sample) (by decide) h
  rw [fields_keys] at hkm
  exact hk k hkm hinf

theorem payload_omits_expire_time_witness :
    (0 : Int) ≤ 0 ∧
      ¬ lit "expire_time=" <:+:
        Session.dataStr ⟨lit "expire_time=", [], [], [], none⟩ (lit "role=x") (lit "a&b=c") 0
          1700000000 7 :=
  ⟨by decide, payload_omits_expire_time _ _ _ _ _ _ (by decide)⟩

/-- C1: for a session bound to credentials, `Session.Token` returns no error and the
string `T1==` followed by the standard padded base64 encoding of
`partner_id=<apiKey>&sig=<lower-case hex of HMAC-SHA1(partnerSecret, payload)>:<payload>`,
where the payload is the string that was signed. -/
theorem token_is_framed_signature (s : Session) (t : Tokbox) (hs : s.t = some t)
    (role connectionData : Str) (expiration now : Int) (sample : Nat) :
    s.Token role connectionData expiration now sample =
      some (.ok (lit "T1==" ++
        base64Encode (lit "partner_id=" ++ t.apiKey ++ lit "&sig=" ++
          fmtHex (hmacSha1 t.partnerSecret
            (s.dataStr role connectionData expiration now sample)) ++
          lit ":" ++ s.dataStr role connectionData expiration now sample))) :=
  Token_eq s t hs role connectionData expiration now sample

theorem token_is_framed_signature_witness :
    (Session.mk (lit "abc123") [] [] [] (some ⟨lit "k1", lit "s1"⟩)).t =
        some ⟨lit "k1", lit "s1"⟩ ∧
      (Session.mk (lit "abc123") [] [] [] (some ⟨lit "k1", lit "s1"⟩)).Token
          (lit "publisher") [] 86400 1700000000 123456 =
        some (.ok (lit ("T1==cGFydG5lcl9pZD1rMSZzaWc9OGY5MWFjNDM4YWUwNDczZmI1MGQwNmRmOGZkYzdm" ++
          "NWNhZmE1NmIyZDpzZXNzaW9uX2lkPWFiYzEyMyZjcmVhdGVfdGltZT0xNzAwMDAwMDAwJmV4cGlyZV90aW1l" ++
          "PTE3MDAwODY0MDAmcm9sZT1wdWJsaXNoZXImbm9uY2U9MTIzNDU2"))) :=
  ⟨rfl, (token_is_framed_signature _ _ rfl _ _ _ _ _).trans
    (congrArg (fun x => some (Except.ok x)) (by decide!))⟩

theorem framed_inj {a k b c S S2 P P2 : Str} (hl : S.length = S2.length)
    (h : a ++ k ++ b ++ S ++ c ++ P = a ++ k ++ b ++ S2 ++ c ++ P2) : S = S2 ∧ P = P2 := by
  simp only [List.append_assoc] at h
  have h1 := List.append_cancel_left (List.append_cancel_left (List.append_cancel_left h))
  obtain ⟨h2, h3⟩ := List.append_inj h1 hl
  exact ⟨h2, List.append_cancel_left h3⟩

theorem fields_injective (s : Session) (role connectionData : Str) (expiration : Int)
    {now1 now2 : Int} {sample1 sample2 : Nat}
    (h : joinFields (s.fields role connectionData expiration now1 sample1) =
      joinFields (s.fields role connectionData expiration now2 sample2)) :
    now1 = now2 ∧ nonce sample1 = nonce sample2 := by
  have hm := congrArg (fun p => p.splitOn (byte 38)) h
  simp only [] at hm
  rw [splitOn_joinFields (fields_ne_nil _ _ _ _ _ _) (fields_isSafe _ _ _ _ _ _),
    splitOn_joinFields (fields_ne_nil _ _ _ _ _ _) (fields_isSafe _ _ _ _ _ _)] at hm
  unfold Session.fields at hm
  simp only [QueryEscape_fmtInt] at hm
  by_cases he : expiration > 0 <;> by_cases hr : role.length > 0 <;>
    by_cases hc : connectionData.length > 0 <;> simp [he, hr, hc] at hm
  all_goals
    first
    | exact ⟨fmtInt_injective hm.1, by have := fmtInt_injective hm.2.2; omega⟩
    | exact ⟨fmtInt_injective hm.1, by have := fmtInt_injective hm.2; omega⟩

/-- C2: the token minted by `Session.Token` is `T1==` followed by a base64 text that
decodes to `partner_id=<apiKey>&sig=S:P` where `S` is 40 lower-case hexadecimal characters,
`P` is the signed payload, and the HMAC-SHA1 of `P` under the same secret, in lower-case
hex, is exactly `S`; any other reading of the decoded text with a 40-character signature
is the same one. -/
theorem token_decodes_and_verifies (s : Session) (t : Tokbox) (hs : s.t = some t)
    (role connectionData : Str) (expiration now : Int) (sample : Nat) :
    ∃ body S P,
      s.Token role connectionData expiration now sample = some (.ok (lit "T1==" ++ body)) ∧
      base64Decode body =
        some (lit "partner_id=" ++ t.apiKey ++ lit "&sig=" ++ S ++ lit ":" ++ P) ∧
      S.length = 40 ∧ (∀ c ∈ S, isLowerHex c = true) ∧
      fmtHex (hmacSha1 t.partnerSecret P) = S ∧
      P = s.dataStr role connectionData expiration now sample ∧
      ∀ S2 P2, S2.length = 40 →
        base64Decode body =
          some (lit "partner_id=" ++ t.apiKey ++ lit "&sig=" ++ S2 ++ lit ":" ++ P2) →
        S2 = S ∧ P2 = P := by
  have hlen : (fmtHex (hmacSha1 t.partnerSecret
      (s.dataStr role connectionData expiration now sample))).length = 40 := by
    rw [fmtHex_length, hmacSha1_length]
  have hdec : base64Decode
      (base64Encode (preCoded t (s.dataStr role connectionData expiration now sample))) =
      some (lit "partner_id=" ++ t.apiKey ++ lit "&sig=" ++
        fmtHex (hmacSha1 t.partnerSecret
          (s.dataStr role connectionData expiration now sample)) ++
        lit ":" ++ s.dataStr role connectionData expiration now sample) :=
    base64Decode_encode _
  refine ⟨_, _, _, Token_eq s t hs role connectionData expiration now sample, hdec, hlen,
    fmtHex_isLowerHex _, rfl, rfl, ?_⟩
  intro S2 P2 hl2 h2
  rw [hdec] at h2
  have h3 := framed_inj (hlen.trans hl2.symm) (Option.some.inj h2)
  exact ⟨h3.1.symm, h3.2.symm⟩

theorem token_decodes_and_verifies_witness :
    demoSession.t = some demoClient ∧
      ∃ body S P,
        demoSession.Token (lit "subscriber") (lit "name=Bob") 0 1700000000 42 =
          some (.ok (lit "T1==" ++ body)) ∧
        base64Decode body =
          some (lit "partner_id=" ++ demoClient.apiKey ++ lit "&sig=" ++ S ++ lit ":" ++ P) ∧
        S.length = 40 ∧ (∀ c ∈ S, isLowerHex c = true) ∧
        fmtHex (hmacSha1 demoClient.partnerSecret P) = S ∧
        P = demoSession.dataStr (lit "subscriber") (lit "name=Bob") 0 1700000000 42 ∧
        ∀ S2 P2, S2.length = 40 →
          base64Decode body =
            some (lit "partner_id=" ++ demoClient.apiKey ++ lit "&sig=" ++ S2 ++ lit ":" ++
              P2) →
          S2 = S ∧ P2 = P :=
  ⟨rfl, token_decodes_and_verifies demoSession demoClient rfl _ _ _ _ _⟩

/-- C6: for a fixed session bound to credentials, role, connection data and expiration,
two calls of `Session.Token` whose (clock value, nonce) pairs differ both return a token,
and the two token strings differ: the token determines the creation timestamp and the
nonce. -/
theorem token_injective_in_time_and_nonce (s : Session) (t : Tokbox) (hs : s.t = some t)
    (role connectionData : Str) (expiration now1 now2 : Int) (sample1 sample2 : Nat)
    (hne : (now1, nonce sample1) ≠ (now2, nonce sample2)) :
    ∃ tok1 tok2 : Str,
      s.Token role connectionData expiration now1 sample1 = some (.ok tok1) ∧
      s.Token role connectionData expiration now2 sample2 = some (.ok tok2) ∧
      tok1 ≠ tok2 := by
  refine ⟨_, _, Token_eq s t hs role connectionData expiration now1 sample1,
    Token_eq s t hs role connectionData expiration now2 sample2, ?_⟩
  intro heq
  apply hne
  have h1 := base64Encode_injective (List.append_cancel_left heq)
  unfold preCoded at h1
  have hl : (fmtHex (hmacSha1 t.partnerSecret
      (s.dataStr role connectionData expiration now1 sample1))).length =
      (fmtHex (hmacSha1 t.partnerSecret
        (s.dataStr role connectionData expiration now2 sample2))).length := by
    rw [fmtHex_length, fmtHex_length, hmacSha1_length, hmacSha1_length]
  have h2 := (framed_inj hl h1).2
  rw [dataStr_eq_joinFields, dataStr_eq_joinFields] at h2
  obtain ⟨h3, h4⟩ := fields_injective s role connectionData expiration h2
  rw [h3, h4]

theorem token_injective_in_time_and_nonce_witness :
    demoSession.t = some demoClient ∧
      ((1700000000 : Int), nonce 5) ≠ (1700000000, nonce 1000005) ∧
      ∃ tok1 tok2 : Str,
        demoSession.Token (lit "publisher") [] 86400 1700000000 5 = some (.ok tok1) ∧
        demoSession.Token (lit "publisher") [] 86400 1700000000 1000005 = some (.ok tok2) ∧
        tok1 ≠ tok2 :=
  ⟨rfl, by decide,
    token_injective_in_time_and_nonce demoSession demoClient rfl _ _ _ _ _ _ _ (by decide)⟩

/-! ## Session creation and recording start -/

theorem NewSession_eq (env : Env) (t : Tokbox) (location : Str) (p2p : Bool) :
    t.NewSession env location p2p =
      match env.NewRequest (lit "POST") (apiHost ++ lit "/session/create")
          (sessionParams location p2p).Encode with
      | .error err => some (.error err)
      | .ok req =>
        match env.Do (req.HeaderAdd (lit "X-TB-PARTNER-AUTH")
            (t.apiKey ++ lit ":" ++ t.partnerSecret)) with
        | .error err => some (.error err)
        | .ok res =>
          if res.StatusCode ≠ 200 then some (.error (statusError res.StatusCode))
          else
            match env.xmlDecode res.Body with
            | .error err => some (.error err)
            | .ok s =>
              match s.Sessions with
              | [] => some (.error emptyResponseError)
              | o :: _ => some (.ok { o with t := some t }) := by
  unfold Tokbox.NewSession sessionParams
  have hp : getPath pathSession t.apiKey = some (apiHost ++ lit "/session/create") := rfl
  simp only [hp]
  split
  · rfl
  · split
    · rfl
    · split
      · rfl
      · split
        · rfl
        · rename_i s hs
          rcases s with ⟨_ | ⟨o, os⟩⟩ <;> simp

theorem NewRecording_eq (env : Env) (t : Tokbox) (s : Session) (hasAudio hasVideo : Bool) :
    t.NewRecording env s hasAudio hasVideo =
      match env.jsonMarshal s.SessionId hasAudio hasVideo with
      | .error err => some (.error err)
      | .ok postData =>
        match env.NewRequest (lit "POST")
            (apiHost ++ lit "/v2/partner/" ++ t.apiKey ++ lit "/archive") postData with
        | .error err => some (.error err)
        | .ok req =>
          match env.Do ((req.HeaderAdd (lit "X-TB-PARTNER-AUTH")
              (t.apiKey ++ lit ":" ++ t.partnerSecret)).HeaderAdd (lit "Content-Type")
              (lit "application/json")) with
          | .error err => some (.error err)
          | .ok res =>
            if res.StatusCode ≠ 200 then some (.error (statusError res.StatusCode))
            else
              match ReadAll res.Body with
              | .error _ => some (.error ⟨lit "Couldn\x27t read response body"⟩)
              | .ok body =>
                match env.jsonUnmarshal body with
                | .error _ => some (.error ⟨lit "Couldn\x27t unmarshal JSON response"⟩)
                | .ok a => some (.ok a) := by
  unfold Tokbox.NewRecording
  have hp : getPath pathArchiveRecording t.apiKey =
      some (apiHost ++ lit "/v2/partner/" ++ t.apiKey ++ lit "/archive") := rfl
  simp only [hp]

theorem statusError_injective {a b : Int} (h : statusError a = statusError b) : a = b := by
  unfold statusError at h
  exact fmtInt_injective (List.append_cancel_left (GoError.mk.inj h))

/-- C7: two independent statements.  When the transport answers the request of
`NewSession` with a status code other than 200, `NewSession` returns the error
`Tokbox returns error code: <status>`, whatever the body and whatever the other
collaborators do; and when the transport answers the request of `NewRecording` with a
status code other than 200, `NewRecording` returns that error for its status.  The error
determines the status code. -/
theorem non200_status_is_returned (env : Env) (t : Tokbox) :
    (∀ (location : Str) (p2p : Bool) (req : Request) (res : Response),
      env.NewRequest (lit "POST") (apiHost ++ lit "/session/create")
        (sessionParams location p2p).Encode = .ok req →
      env.Do (req.HeaderAdd (lit "X-TB-PARTNER-AUTH")
        (t.apiKey ++ lit ":" ++ t.partnerSecret)) = .ok res →
      res.StatusCode ≠ 200 →
      t.NewSession env location p2p = some (.error (statusError res.StatusCode))) ∧
    (∀ (s : Session) (hasAudio hasVideo : Bool) (postData : Str) (req : Request)
        (res : Response),
      env.jsonMarshal s.SessionId hasAudio hasVideo = .ok postData →
      env.NewRequest (lit "POST")
        (apiHost ++ lit "/v2/partner/" ++ t.apiKey ++ lit "/archive") postData = .ok req →
      env.Do ((req.HeaderAdd (lit "X-TB-PARTNER-AUTH")
        (t.apiKey ++ lit ":" ++ t.partnerSecret)).HeaderAdd (lit "Content-Type")
        (lit "application/json")) = .ok res →
      res.StatusCode ≠ 200 →
      t.NewRecording env s hasAudio hasVideo =
        some (.error (statusError res.StatusCode))) ∧
    (∀ c : Int, (statusError c).msg = lit "Tokbox returns error code: " ++ fmtInt c) ∧
    ∀ c1 c2 : Int, statusError c1 = statusError c2 → c1 = c2 := by
  refine ⟨?_, ?_, fun _ => rfl, fun _ _ h => statusError_injective h⟩
  · intro location p2p req res hnew hdo hst
    rw [NewSession_eq]
    simp only [hnew, hdo]
    rw [if_pos hst]
  · intro s hasAudio hasVideo postData req res hjson hnew hdo hst
    rw [NewRecording_eq]
    simp only [hjson, hnew, hdo]
    rw [if_pos hst]

theorem non200_status_is_returned_witness :
    ((500 : Int) ≠ 200) ∧ ((400 : Int) ≠ 200) ∧
      (brokenJsonEnv ⟨500, ⟨lit "any body", none⟩⟩).jsonMarshal demoSession.SessionId true
        true = .error ⟨lit "json: unsupported value"⟩ ∧
      demoClient.NewSession (brokenJsonEnv ⟨500, ⟨lit "any body", none⟩⟩) [] true =
        some (.error (statusError 500)) ∧
      demoClient.NewRecording (demoEnv ⟨400, ⟨[], some ⟨lit "unexpected EOF"⟩⟩⟩ []) demoSession
        true true = some (.error (statusError 400)) :=
  ⟨by decide, by decide, rfl,
    (non200_status_is_returned (brokenJsonEnv ⟨500, ⟨lit "any body", none⟩⟩) demoClient).1
      [] true _ ⟨500, ⟨lit "any body", none⟩⟩ rfl rfl (by decide),
    (non200_status_is_returned (demoEnv ⟨400, ⟨[], some ⟨lit "unexpected EOF"⟩⟩⟩ [])
      demoClient).2.1 demoSession true true [] _ ⟨400, ⟨[], some ⟨lit "unexpected EOF"⟩⟩⟩
      rfl rfl rfl (by decide)⟩

/-- C8: when the transport answers the request of `NewSession` with status 200 and the
body decodes to zero session entries, `NewSession` returns the error
`tokbox did not return a session` and no session. -/
theorem empty_response_is_error (env : Env) (t : Tokbox) (location : Str) (p2p : Bool)
    (req : Request) (res : Response)
    (hnew : env.NewRequest (lit "POST") (apiHost ++ lit "/session/create")
      (sessionParams location p2p).Encode = .ok req)
    (hdo : env.Do (req.HeaderAdd (lit "X-TB-PARTNER-AUTH")
      (t.apiKey ++ lit ":" ++ t.partnerSecret)) = .ok res)
    (hst : res.StatusCode = 200)
    (hxml : env.xmlDecode res.Body = .ok ⟨[]⟩) :
    t.NewSession env location p2p = some (.error emptyResponseError) ∧
      emptyResponseError.msg = lit "tokbox did not return a session" ∧
      ∀ o : Session, t.NewSession env location p2p ≠ some (.ok o) := by
  have h : t.NewSession env location p2p = some (.error emptyResponseError) := by
    rw [NewSession_eq]
    simp only [hnew, hdo, hxml]
    rw [if_neg (by simp [hst])]
  refine ⟨h, rfl, ?_⟩
  intro o ho
  rw [h] at ho
  cases ho

theorem empty_response_is_error_witness :
    (demoEnv ⟨200, ⟨lit "<sessions/>", none⟩⟩ []).xmlDecode ⟨lit "<sessions/>", none⟩ =
        .ok ⟨[]⟩ ∧
      demoClient.NewSession (demoEnv ⟨200, ⟨lit "<sessions/>", none⟩⟩ []) (lit "1.2.3.4")
          false = some (.error emptyResponseError) :=
  ⟨rfl, (empty_response_is_error (demoEnv ⟨200, ⟨lit "<sessions/>", none⟩⟩ []) demoClient
    (lit "1.2.3.4") false _ ⟨200, ⟨lit "<sessions/>", none⟩⟩ rfl rfl rfl rfl).1⟩

/-- C9: when the transport answers the request of `NewSession` with status 200 and the
body decodes to a non-empty list of session descriptors, `NewSession` returns no error and
a session with the `SessionId`, `PartnerId`, `CreateDt` and `SessionStatus` of the first
descriptor, bound to the calling client; every token minted from it carries that client's
`apiKey` and is signed with that client's `partnerSecret`. -/
theorem first_descriptor_is_bound (env : Env) (t : Tokbox) (location : Str) (p2p : Bool)
    (req : Request) (res : Response) (d : Session) (ds : List Session)
    (hnew : env.NewRequest (lit "POST") (apiHost ++ lit "/session/create")
      (sessionParams location p2p).Encode = .ok req)
    (hdo : env.Do (req.HeaderAdd (lit "X-TB-PARTNER-AUTH")
      (t.apiKey ++ lit ":" ++ t.partnerSecret)) = .ok res)
    (hst : res.StatusCode = 200)
    (hxml : env.xmlDecode res.Body = .ok ⟨d :: ds⟩) :
    ∃ o : Session, t.NewSession env location p2p = some (.ok o) ∧
      o.SessionId = d.SessionId ∧ o.PartnerId = d.PartnerId ∧ o.CreateDt = d.CreateDt ∧
      o.SessionStatus = d.SessionStatus ∧ o.t = some t ∧
      ∀ (role connectionData : Str) (expiration now : Int) (sample : Nat),
        o.Token role connectionData expiration now sample =
          some (.ok (lit "T1==" ++
            base64Encode (lit "partner_id=" ++ t.apiKey ++ lit "&sig=" ++
              fmtHex (hmacSha1 t.partnerSecret
                (o.dataStr role connectionData expiration now sample)) ++
              lit ":" ++ o.dataStr role connectionData expiration now sample))) := by
  refine ⟨{ d with t := some t }, ?_, rfl, rfl, rfl, rfl, rfl, ?_⟩
  · rw [NewSession_eq]
    simp only [hnew, hdo, hxml]
    rw [if_neg (by simp [hst])]
  · intro role connectionData expiration now sample
    exact Token_eq _ t rfl role connectionData expiration now sample

theorem first_descriptor_is_bound_witness :
    (demoEnv ⟨200, ⟨[], none⟩⟩
        [⟨lit "2_MX4", lit "45678", lit "Mon", lit "ok", none⟩, demoSession]).xmlDecode
        ⟨[], none⟩ =
        .ok ⟨[⟨lit "2_MX4", lit "45678", lit "Mon", lit "ok", none⟩, demoSession]⟩ ∧
      ∃ o : Session,
        demoClient.NewSession (demoEnv ⟨200, ⟨[], none⟩⟩
          [⟨lit "2_MX4", lit "45678", lit "Mon", lit "ok", none⟩, demoSession]) [] true =
          some (.ok o) ∧
        o.SessionId = lit "2_MX4" ∧ o.t = some demoClient :=
  have h := first_descriptor_is_bound (demoEnv ⟨200, ⟨[], none⟩⟩
    [⟨lit "2_MX4", lit "45678", lit "Mon", lit "ok", none⟩, demoSession]) demoClient [] true _
    ⟨200, ⟨[], none⟩⟩ ⟨lit "2_MX4", lit "45678", lit "Mon", lit "ok", none⟩ [demoSession]
    rfl rfl rfl rfl
  ⟨rfl, h.choose, h.choose_spec.1, h.choose_spec.2.1, h.choose_spec.2.2.2.2.2.1⟩

/-! ## The nonce -/

theorem nonce_lt (sample : Nat) : nonce sample < 999999 :=
  Nat.mod_lt _ (by decide)

theorem nonce_of_lt {n : Nat} (h : n < 999999) : nonce n = n :=
  Nat.mod_eq_of_lt h

theorem last_piece (s : Session) (role connectionData : Str) (expiration now : Int)
    (sample : Nat) :
    ((s.dataStr role connectionData expiration now sample).splitOn (byte 38)).getLast? =
      some (lit "nonce=" ++ fmtInt (nonce sample)) := by
  have h0 : lit "nonce=" = lit "nonce" ++ [byte 61] := by decide
  rw [dataStr_eq_joinFields,
    splitOn_joinFields (fields_ne_nil _ _ _ _ _ _) (fields_isSafe _ _ _ _ _ _), h0]
  unfold Session.fields
  rw [List.map_append, List.map_singleton, List.getLast?_concat, QueryEscape_fmtInt,
    List.append_assoc]
  rfl

/-- C10, amended: the nonce field of the payload signed by `Session.Token` (its last
`&`-separated piece) is `nonce=<n>` for some outcome of the random source exactly when
`n` is an integer of the range 0 to 999998: `rand.Intn(999999)` never returns 999999. -/
theorem nonce_field_range (s : Session) (role connectionData : Str) (expiration now : Int)
    (n : Nat) :
    (∃ sample : Nat,
      ((s.dataStr role connectionData expiration now sample).splitOn (byte 38)).getLast? =
        some (lit "nonce=" ++ fmtInt n)) ↔ n ≤ 999998 := by
  constructor
  · rintro ⟨sample, h⟩
    rw [last_piece] at h
    have h1 := fmtInt_injective (List.append_cancel_left (Option.some.inj h))
    have h2 := nonce_lt sample
    omega
  · intro h
    refine ⟨n, ?_⟩
    rw [last_piece, nonce_of_lt (by omega)]

/-- C10 as stated fails: no outcome of the random source gives the nonce field 999999. -/
theorem nonce_field_never_999999 :
    ¬ ∃ sample : Nat,
      ((demoSession.dataStr (lit "publisher") [] 86400 1700000000 sample).splitOn
        (byte 38)).getLast? = some (lit "nonce=" ++ fmtInt 999999) := by
  rintro ⟨sample, h⟩
  rw [last_piece] at h
  have h1 := fmtInt_injective (List.append_cancel_left (Option.some.inj h))
  have h2 := nonce_lt sample
  omega

end tokbox
